import Mathlib

/-!
Verification development for the `cmdinput` repository (src/cmdinput.py).

The module is a stateful tokenizing input reader built on one global line
buffer.  We embed it shallowly: a Python string is a `List Char`, the
global `_buffer` together with the remaining lines of the input source is
an explicit `RState`, and each operation of the module becomes a pure
state-passing function.  Exceptions become an explicit error type.

Correspondence with the source:
  * `_read_one(sep, file)`  ↦ `readOne`
  * `clear_buffer()`        ↦ `clear_buffer`
  * `_transform(value,typ)` ↦ `transform`
  * `read(*types, ...)`     ↦ `read`
  * `readline(file)`        ↦ `readline`
  * `read_list(typ, n,...)` ↦ `read_list`
-/

/-- A Python string, modelled as a list of characters. -/
abbrev PyStr := List Char

/-- Whitespace test used by Python `str.strip()` / `str.split()`.
`Char.isWhitespace` covers space, tab, CR and LF, which is the fragment of
Python's whitespace set relevant to line-oriented input. -/
def isWs (c : Char) : Bool := c.isWhitespace

/-- Remove leading whitespace (the leading half of Python `str.strip()`). -/
def dropLead (l : PyStr) : PyStr := l.dropWhile isWs

/-- Remove trailing whitespace (the trailing half of Python `str.strip()`). -/
def dropTrail (l : PyStr) : PyStr := (l.reverse.dropWhile isWs).reverse

/-- Python `s.strip()`: remove leading and trailing whitespace. -/
def pyStrip (l : PyStr) : PyStr := dropTrail (dropLead l)

/-- Python `s.lower()` restricted to the characters the module compares
(`'true'`/`'false'`); character-wise lowercasing. -/
def pyLower (l : PyStr) : PyStr := l.map Char.toLower

/-- Python `s.split(None, 1)`: skip leading whitespace; if nothing is left
the result is `[]`; otherwise the first maximal run of non-whitespace
characters is the token, and the remainder (with its leading whitespace
skipped) is the second element when it is non-empty. -/
def pySplitWs1 (l : PyStr) : List PyStr :=
  match dropLead l with
  | [] => []
  | c :: cs =>
    if dropLead ((c :: cs).dropWhile (fun x => !isWs x)) = [] then
      [(c :: cs).takeWhile (fun x => !isWs x)]
    else
      [(c :: cs).takeWhile (fun x => !isWs x),
       dropLead ((c :: cs).dropWhile (fun x => !isWs x))]

/-- Python `s.split(sep, 1)` for an explicit separator: split at the
leftmost occurrence of `sep`.  Returns the part before the occurrence and
(if `sep` occurs) the part after it.  Python rejects an empty separator
with an error; here an empty separator simply never matches, and every
statement about explicit separators is read with non-empty separators in
mind. -/
def pySplitSep1 (sep : PyStr) : PyStr → PyStr × Option PyStr
  | [] => ([], none)
  | c :: cs =>
    if sep ≠ [] ∧ sep.isPrefixOf (c :: cs) then
      ([], some ((c :: cs).drop sep.length))
    else
      (c :: (pySplitSep1 sep cs).1, (pySplitSep1 sep cs).2)

/-- The list `parts` of `cmdinput.py` line 23: `_buffer.strip().split(sep, 1)`
applied to an already-extracted buffer content.  `sep = none` is Python's
`sep=None` (whitespace splitting); `sep = some sp` is an explicit separator
(Python always returns at least one part in that case). -/
def splitParts (sep : Option PyStr) (l : PyStr) : List PyStr :=
  match sep with
  | none => pySplitWs1 l
  | some sp =>
    match pySplitSep1 sp l with
    | (t, none) => [t]
    | (t, some r) => [t, r]

/-- The reader state: the global `_buffer` (`none` is Python `None`) and the
lines still available from the input source.  `input = []` means the source
is exhausted (Python `file.readline()` then returns `""` forever); a blank
line in the source is the element `[]` of `input`.  Lines are stored
without their trailing newline, which the code strips immediately anyway. -/
structure RState where
  buffer : Option PyStr
  input : List PyStr
deriving DecidableEq

/-- Python truthiness of the `_buffer` global: `None` and `""` are falsy. -/
def bufTruthy : Option PyStr → Bool
  | some (_ :: _) => true
  | _ => false

/-- `_read_one(sep, file)` (cmdinput.py lines 17-28): if the buffer is falsy,
refill it with a stripped line from the source; split the stripped buffer
into at most two parts; the remainder (if any) becomes the new buffer,
otherwise the buffer becomes `None`; the first part (if any) is returned,
otherwise `None` is returned. -/
def readOne (sep : Option PyStr) (s : RState) : Option PyStr × RState :=
  let fetched : PyStr × List PyStr :=
    if bufTruthy s.buffer then (s.buffer.getD [], s.input)
    else
      match s.input with
      | [] => ([], [])
      | l :: ls => (pyStrip l, ls)
  let parts := splitParts sep (pyStrip fetched.1)
  (match parts with | t :: _ => some t | [] => none,
   ⟨match parts with | _ :: r :: _ => some r | _ => none, fetched.2⟩)

/-- `clear_buffer()` (cmdinput.py lines 30-37): set the buffer to `None`
unconditionally.  It is a total function: it never raises. -/
def clear_buffer (s : RState) : RState := ⟨none, s.input⟩

/-- A Python exception class as raised by a caller-supplied conversion
function: `ValueError`, `TypeError`, or any other class (by name). -/
inductive PyExc where
  | valueError (msg : String)
  | typeError (msg : String)
  | other (name : String)

/-- A Python value as produced by the module: `int`, `str`, `bool`, or the
tuple returned by `read` with several type requests.  Caller-supplied
conversion functions may return any of these. -/
inductive PyVal where
  | int (n : Int)
  | str (s : PyStr)
  | bool (b : Bool)
  | tuple (elems : List PyVal)

/-- A type request passed to `read`/`read_list`: the builtin types the
module documents (`int`, `str`, `bool`), a caller-supplied conversion
function, or a Python list of further requests (a "list shape").  `float`
requests are not modelled: no claim concerns floating-point parsing. -/
inductive TypeReq where
  | int
  | str
  | bool
  | custom (f : PyStr → Except PyExc PyVal)
  | listShape (shape : List TypeReq)

/-- The errors the module can surface, keyed to the exact `raise` sites:
`noInput` is `ValueError("No input provided")` (the spec's
`EmptyInputError`); `invalidBool` is `ValueError("Invalid boolean value:
...")` and `couldNotConvert` is `ValueError("Could not convert ... to ...")`
(together the spec's `ConversionError`, carrying the offending token and
target); `emptyList` is `ValueError("Cannot read empty list")` (the spec's
`InvalidRequestError`); `raised e` is an exception from a caller-supplied
conversion function that `_transform` does not catch and which therefore
propagates unwrapped. -/
inductive PErr where
  | noInput
  | invalidBool (token : PyStr)
  | couldNotConvert (token : PyStr) (typ : TypeReq)
  | emptyList
  | raised (e : PyExc)

/-- The spelling `true` compared against by `_transform`. -/
def trueLit : PyStr := ['t', 'r', 'u', 'e']

/-- The spelling `false` compared against by `_transform`. -/
def falseLit : PyStr := ['f', 'a', 'l', 's', 'e']

/-- Python `int(s)` on plain decimal literals: optional surrounding
whitespace, an optional sign, then one or more digits.  (Python's `int`
also accepts underscores and non-ASCII digits; no claim depends on those.) -/
def pyInt? (l : PyStr) : Option Int :=
  match pyStrip l with
  | [] => none
  | '+' :: ds =>
    if ds ≠ [] ∧ ds.all Char.isDigit then
      some (Int.ofNat (ds.foldl (fun a c => a * 10 + (c.toNat - 48)) 0))
    else none
  | '-' :: ds =>
    if ds ≠ [] ∧ ds.all Char.isDigit then
      some (-(Int.ofNat (ds.foldl (fun a c => a * 10 + (c.toNat - 48)) 0)))
    else none
  | ds =>
    if ds.all Char.isDigit then
      some (Int.ofNat (ds.foldl (fun a c => a * 10 + (c.toNat - 48)) 0))
    else none

/-- `_transform(value, typ)` (cmdinput.py lines 41-63).  `bool` is handled
first: lowercase membership in `('true','false')`, otherwise
`ValueError("Invalid boolean value: ...")`.  Every other request runs
`typ(value) if callable(typ) else value` under
`except (ValueError, TypeError)`, which re-raises as `ValueError("Could not
convert ...")`.  A Python list (a list shape) is not callable and compares
unequal to `bool`, so the token is returned unchanged.  A caller-supplied
function is applied directly; only `ValueError` and `TypeError` from it are
caught, any other exception propagates. -/
def transform (value : PyStr) : TypeReq → Except PErr PyVal
  | .bool =>
    if pyLower value = trueLit ∨ pyLower value = falseLit then
      .ok (.bool (pyLower value == trueLit))
    else
      .error (.invalidBool value)
  | .int =>
    match pyInt? value with
    | some n => .ok (.int n)
    | none => .error (.couldNotConvert value .int)
  | .str => .ok (.str value)
  | .custom f =>
    match f value with
    | .ok v => .ok v
    | .error (.valueError _) => .error (.couldNotConvert value (.custom f))
    | .error (.typeError _) => .error (.couldNotConvert value (.custom f))
    | .error e => .error (.raised e)
  | .listShape _ => .ok (.str value)

/-- The loop shared by `read` (lines 82-91) and `read_list` (lines 129-137):
for each requested type pull one token with `_read_one`, raise
`ValueError("No input provided")` if it is falsy, convert it, and collect
the results.  The final state is returned even on error, matching the fact
that the Python exception propagates after the global buffer was already
updated. -/
def readLoop : List TypeReq → Option PyStr → RState → Except PErr (List PyVal) × RState
  | [], _, s => (.ok [], s)
  | t :: ts, sep, s =>
    match readOne sep s with
    | (v, s1) =>
      match v with
      | some (c :: cs) =>
        match transform (c :: cs) t with
        | .ok w =>
          match readLoop ts sep s1 with
          | (.ok ws, s2) => (.ok (w :: ws), s2)
          | (.error e, s2) => (.error e, s2)
        | .error e => (.error e, s1)
      | _ => (.error .noInput, s1)

/-- `read(*types, sep, file)` (cmdinput.py lines 65-92): run the loop and
return `result[0]` when exactly one value was collected, else
`tuple(result)` (the empty tuple for zero type requests). -/
def read (types : List TypeReq) (sep : Option PyStr) (s : RState) :
    Except PErr PyVal × RState :=
  match readLoop types sep s with
  | (.ok vs, s1) => (.ok (match vs with | [v] => v | _ => .tuple vs), s1)
  | (.error e, s1) => (.error e, s1)

/-- `read_list(typ, n, sep, file)` (cmdinput.py lines 112-139): `n = 0`
raises `ValueError("Cannot read empty list")` before touching the source;
otherwise the body is the same loop as `read`, run `n` times with the one
requested type. -/
def read_list (typ : TypeReq) (n : Nat) (sep : Option PyStr) (s : RState) :
    Except PErr (List PyVal) × RState :=
  if n = 0 then (.error .emptyList, s)
  else readLoop (List.replicate n typ) sep s

/-- `readline(file)` (cmdinput.py lines 94-110): if the buffer is truthy,
return it and clear it; otherwise return a fresh stripped line from the
source (the buffer, possibly `""`, is left as it was). -/
def readline (s : RState) : PyStr × RState :=
  match s.buffer with
  | some (c :: cs) => (c :: cs, ⟨none, s.input⟩)
  | b =>
    match s.input with
    | [] => ([], ⟨b, []⟩)
    | l :: ls => (pyStrip l, ⟨b, ls⟩)

/-- A sequence of successive single-scalar string `read` calls, one per
listed separator, threading the global state through the calls. -/
def readSeq : List (Option PyStr) → RState → List (Except PErr PyVal) × RState
  | [], s => ([], s)
  | sp :: sps, s =>
    match read [TypeReq.str] sp s with
    | (r, s1) =>
      match readSeq sps s1 with
      | (rs, s2) => (r :: rs, s2)

/-- Fuel-driven iteration of `s.split(None, 1)`: the whitespace tokens of a
string, in order.  With fuel at least the length of the string this is
Python's full `s.split()`, since the full whitespace split is the iteration
of the one-step split. -/
def wsIterGo : Nat → PyStr → List PyStr
  | 0, _ => []
  | fuel + 1, m =>
    match pySplitWs1 m with
    | [] => []
    | [t] => [t]
    | t :: r :: _ => t :: wsIterGo fuel r

/-- Python `line.split()`: the whitespace-separated tokens of a line, left
to right. -/
def pyTokens (l : PyStr) : List PyStr := wsIterGo l.length (pyStrip l)

/-- The remainder component of one whitespace split step (empty when the
split yields at most one part). -/
def snd1 (m : PyStr) : PyStr :=
  match pySplitWs1 m with
  | _ :: r :: _ => r
  | _ => []

/-- The content left of a (stripped) line after `k` whitespace tokens have
been split off: the line's remaining whitespace-separated content, with
surrounding whitespace trimmed. -/
def tokRest : Nat → PyStr → PyStr
  | 0, m => m
  | k + 1, m => tokRest k (snd1 m)

/-- The buffer value holding remainder `r`: Python stores `None` rather
than an empty remainder after a whitespace split. -/
def bufOf (r : PyStr) : Option PyStr := if r = [] then none else some r

/-- Falsiness of the value `_read_one` returns: `None` or the empty string
(both make `read` raise `ValueError("No input provided")`). -/
def tokenEmpty : Option PyStr → Bool
  | some (_ :: _) => false
  | _ => true

/-- The new buffer derived from a `parts` list, as in cmdinput.py line 26:
`parts[1] if len(parts) > 1 else None`. -/
def restOf : List PyStr → Option PyStr
  | _ :: r :: _ => some r
  | _ => none

/-- The reader state reached from the fresh state over the one-line source
`[line]` after `k` successful single-token reads. -/
def stateAfter (line : PyStr) (k : Nat) : RState :=
  if k = 0 then ⟨none, [line]⟩ else ⟨bufOf (tokRest k (pyStrip line)), []⟩

/-- The buffer invariant relative to an original source `s0`: the unread
input is a suffix of `s0` (the lines before it have been fetched, in
order), and whatever the buffer holds is a contiguous piece of the single
most recently fetched line — never content from more than one line. -/
def BufInv (s0 : List PyStr) (s : RState) : Prop :=
  ∃ pre, s0 = pre ++ s.input ∧
    ∀ m, s.buffer = some m → ∃ l, pre.getLast? = some l ∧ m <:+: l

/-- A caller-supplied conversion function that always raises `ValueError`. -/
def fBoom : PyStr → Except PyExc PyVal := fun _ => .error (.valueError "boom")

/-- A caller-supplied conversion function that always raises `KeyError`, an
exception class outside the `(ValueError, TypeError)` tuple that
`_transform` catches. -/
def fKeyErr : PyStr → Except PyExc PyVal := fun _ => .error (.other "KeyError")

/-- The nested list shape `[[int]*2]*2` of the specification's example. -/
def shape22 : TypeReq :=
  .listShape [.listShape [.int, .int], .listShape [.int, .int]]

/-- Unfolding equation for `read`, convenient for `simp` (the bare name
`read` is ambiguous with the monadic reader operation). -/
theorem read_def (types : List TypeReq) (sep : Option PyStr) (s : RState) :
    read types sep s =
      match readLoop types sep s with
      | (.ok vs, s1) => (.ok (match vs with | [v] => v | _ => .tuple vs), s1)
      | (.error e, s1) => (.error e, s1) := rfl

/-- C10: calling `read` with zero type requests returns the empty tuple,
raises no error, reads nothing from the source and leaves the buffer
untouched (the loop body never runs and `tuple([])` is returned). -/
theorem read_zero_types (sep : Option PyStr) (s : RState) :
    read [] sep s = (.ok (.tuple []), s) := rfl

/-- C1 (evaluation at the failing input): reading the nested shape
`[[int]*2]*2` from the source `"1 2\n3 4\n"` does not produce
`[[1,2],[3,4]]`; the shape falls through `_transform`'s `callable` test and
`read` returns the raw first token `"1"` as a string, leaving `"2"` in the
buffer and the second line unread.  This contradicts the claim and the
repository's own tests (`test_read_list`, `test_nested_int_lists`). -/
theorem nested_shape_not_recursed :
    read [shape22] none ⟨none, [['1', ' ', '2'], ['3', ' ', '4']]⟩ =
      (.ok (.str ['1']), ⟨some ['2'], [['3', ' ', '4']]⟩) := rfl

/-- C3 (evaluation at the failing input): `read_list` with count `0` does
raise `ValueError("Cannot read empty list")` unconditionally, but `read`
given the zero-length list shape `[]` over a source holding a token raises
nothing and returns the raw token, contradicting the claim that every
zero-length list shape request raises regardless of input. -/
theorem zero_length_shape_eval :
    read_list .int 0 none ⟨none, []⟩ = (.error .emptyList, ⟨none, []⟩) ∧
    read [.listShape []] none ⟨none, [['x']]⟩ = (.ok (.str ['x']), ⟨none, []⟩) :=
  ⟨rfl, rfl⟩

/-- C2 (counterexample): with an empty buffer and the source
`"\n5\n"` — NOT exhausted, its second line contains the token `5` — a
scalar read still raises `ValueError("No input provided")`, because
`_read_one` pulls at most one line per call and the first line is blank.
So `EmptyInputError` is not raised only when the source is exhausted. -/
theorem empty_input_raised_midstream :
    (read [.str] none ⟨none, [[], ['5']]⟩).1 = .error .noInput ∧
    pyTokens ['5'] ≠ [] :=
  ⟨rfl, by decide⟩

/-- C2 (amended): a scalar read raises `ValueError("No input provided")`
exactly when the token `_read_one` produces is falsy (`None` or empty):
in particular whenever the buffer is empty and the source exhausted — but
also when the single line pulled is blank even though later lines hold
tokens, and, with an explicit separator, when the split yields an empty
first field. -/
theorem empty_input_exact (sep : Option PyStr) (s : RState) :
    (bufTruthy s.buffer = false → s.input = [] → ∀ (t : TypeReq) (ts : List TypeReq),
       (read (t :: ts) sep s).1 = .error .noInput) ∧
    ((read [.str] sep s).1 = .error .noInput ↔ tokenEmpty (readOne sep s).1 = true) := by
  constructor
  · intro hb hi t ts
    cases sep <;>
      simp [read_def, readLoop, readOne, hb, hi, splitParts, pySplitWs1, pySplitSep1,
        pyStrip, dropLead, dropTrail]
  · rcases h : readOne sep s with ⟨v, s1⟩
    match v with
    | none => simp [read_def, readLoop, h, tokenEmpty]
    | some [] => simp [read_def, readLoop, h, tokenEmpty]
    | some (c :: cs) => simp [read_def, readLoop, h, transform, tokenEmpty]

/-- C2 (witness): the amended theorem applied at the exhausted source. -/
theorem empty_input_exact_witness :
    (read [TypeReq.int] none ⟨none, []⟩).1 = .error .noInput :=
  (empty_input_exact none ⟨none, []⟩).1 rfl rfl .int []

/-- C4 (counterexample): a caller-supplied conversion function that raises
`KeyError` has its exception propagate to the caller unwrapped — it is not
turned into the `ValueError("Could not convert ...")` that stands for
`ConversionError`, because `_transform` catches only `(ValueError,
TypeError)`. -/
theorem uncaught_exception_propagates :
    transform ['x'] (.custom fKeyErr) = .error (.raised (.other "KeyError")) := rfl

/-- C4 (amended): a caller-supplied conversion function is applied directly
to the token; a `ValueError` or `TypeError` it raises is wrapped as the
conversion error carrying the offending token and the target; any other
exception class propagates unwrapped. -/
theorem custom_conversion_wrapped (f : PyStr → Except PyExc PyVal) (v : PyStr) :
    (∀ u, f v = .ok u → transform v (.custom f) = .ok u) ∧
    (∀ m, f v = .error (.valueError m) →
       transform v (.custom f) = .error (.couldNotConvert v (.custom f))) ∧
    (∀ m, f v = .error (.typeError m) →
       transform v (.custom f) = .error (.couldNotConvert v (.custom f))) ∧
    (∀ nm, f v = .error (.other nm) →
       transform v (.custom f) = .error (.raised (.other nm))) := by
  refine ⟨fun u h => ?_, fun m h => ?_, fun m h => ?_, fun nm h => ?_⟩ <;>
    simp [transform, h]

/-- C4 (witness): the amended theorem applied to a function raising
`ValueError`. -/
theorem custom_conversion_wrapped_witness :
    transform ['x'] (.custom fBoom) = .error (.couldNotConvert ['x'] (.custom fBoom)) :=
  (custom_conversion_wrapped fBoom ['x']).2.1 "boom" rfl

/-- C6: boolean coercion accepts exactly the spellings `true` and `false`
compared case-insensitively (returning the matching boolean) and fails
with the conversion error on every other token, including `1`, `0`, `yes`
and `no`. -/
theorem bool_coercion_exact :
    (∀ v : PyStr, pyLower v = trueLit → transform v .bool = .ok (.bool true)) ∧
    (∀ v : PyStr, pyLower v = falseLit → transform v .bool = .ok (.bool false)) ∧
    (∀ v : PyStr, pyLower v ≠ trueLit → pyLower v ≠ falseLit →
       transform v .bool = .error (.invalidBool v)) ∧
    transform ['1'] .bool = .error (.invalidBool ['1']) ∧
    transform ['0'] .bool = .error (.invalidBool ['0']) ∧
    transform ['y', 'e', 's'] .bool = .error (.invalidBool ['y', 'e', 's']) ∧
    transform ['n', 'o'] .bool = .error (.invalidBool ['n', 'o']) ∧
    transform ['T', 'R', 'U', 'E'] .bool = .ok (.bool true) ∧
    transform ['F', 'a', 'l', 's', 'e'] .bool = .ok (.bool false) := by
  refine ⟨fun v h => ?_, fun v h => ?_, fun v h1 h2 => ?_, ?_, ?_, ?_, ?_, ?_, ?_⟩
  · simp [transform, h]
  · simp [transform, h, trueLit, falseLit]
  · simp [transform, h1, h2]
  all_goals rfl

/-- C6 (witness): the universal rejection clause applied at the token `ok`. -/
theorem bool_coercion_exact_witness :
    transform ['o', 'k'] .bool = .error (.invalidBool ['o', 'k']) :=
  bool_coercion_exact.2.2.1 ['o', 'k'] (by decide) (by decide)

/-- A list whose `dropWhile` is a cons has a head failing the predicate. -/
theorem dropWhile_head_false {p : Char → Bool} :
    ∀ (l : PyStr) (c : Char) (cs : PyStr), l.dropWhile p = c :: cs → p c = false := by
  intro l
  induction l with
  | nil => intro c cs h; simp at h
  | cons a t ih =>
    intro c cs h
    by_cases hp : p a
    · exact ih c cs (by simpa [List.dropWhile_cons, hp] using h)
    · rw [List.dropWhile_cons_of_neg hp] at h
      cases h
      simpa using hp

/-- A cons fixed by `dropWhile` has a head failing the predicate. -/
theorem dropWhile_fix_head {p : Char → Bool} {c : Char} {t : PyStr}
    (h : (c :: t).dropWhile p = c :: t) : p c = false :=
  dropWhile_head_false (c :: t) c t h

/-- `dropWhile` is idempotent. -/
theorem dropWhile_idem (p : Char → Bool) (l : PyStr) :
    (l.dropWhile p).dropWhile p = l.dropWhile p := by
  cases h : l.dropWhile p with
  | nil => simp
  | cons c cs =>
    have := dropWhile_head_false l c cs h
    simp [List.dropWhile_cons, this]

/-- A prefix of a `dropWhile`-fixed list is itself fixed. -/
theorem dropWhile_fix_of_pref {p : Char → Bool} :
    ∀ {m r : PyStr}, m.dropWhile p = m → r <+: m → r.dropWhile p = r := by
  intro m r hm hr
  cases r with
  | nil => simp
  | cons c cs =>
    rcases hr with ⟨t, ht⟩
    have hc : p c = false := by
      apply dropWhile_fix_head (t := cs ++ t)
      rw [← List.cons_append, ht]
      exact hm
    simp [List.dropWhile_cons, hc]

/-- `dropTrail` yields a prefix of its argument. -/
theorem dropTrail_pref (l : PyStr) : dropTrail l <+: l := by
  have h := List.dropWhile_suffix (l := l.reverse) isWs
  have := List.reverse_prefix.mpr h
  simpa [dropTrail] using this

/-- `dropLead` yields a suffix of its argument. -/
theorem dropLead_suff (l : PyStr) : dropLead l <:+ l :=
  List.dropWhile_suffix isWs

/-- `dropLead` is idempotent. -/
theorem dropLead_idem (l : PyStr) : dropLead (dropLead l) = dropLead l :=
  dropWhile_idem isWs l

/-- `dropTrail` is idempotent. -/
theorem dropTrail_idem (l : PyStr) : dropTrail (dropTrail l) = dropTrail l := by
  simp [dropTrail, List.reverse_reverse, dropWhile_idem]

/-- A string equal to its own strip has no leading whitespace to drop. -/
theorem dropLead_of_strip_fix {m : PyStr} (h : pyStrip m = m) : dropLead m = m := by
  have h1 : pyStrip m <+: dropLead m := dropTrail_pref (dropLead m)
  have h2 : dropLead m <:+ m := dropLead_suff m
  have hlen : (dropLead m).length = m.length := by
    have ha := h1.length_le
    rw [h] at ha
    exact Nat.le_antisymm h2.length_le ha
  exact h2.eq_of_length hlen

/-- A string equal to its own strip has no trailing whitespace to drop. -/
theorem dropTrail_of_strip_fix {m : PyStr} (h : pyStrip m = m) : dropTrail m = m := by
  have hd := dropLead_of_strip_fix h
  rw [pyStrip, hd] at h
  exact h

/-- A suffix of a string without trailing whitespace also has none. -/
theorem dropTrail_fix_of_suff {m r : PyStr} (hm : dropTrail m = m) (hr : r <:+ m) :
    dropTrail r = r := by
  have hm' : m.reverse.dropWhile isWs = m.reverse := by
    have := congrArg List.reverse hm
    simpa [dropTrail] using this
  have hr' : r.reverse <+: m.reverse := List.reverse_prefix.mpr hr
  have := dropWhile_fix_of_pref hm' hr'
  have := congrArg List.reverse this
  simpa [dropTrail] using this

/-- Python `strip` is idempotent. -/
theorem pyStrip_idem (l : PyStr) : pyStrip (pyStrip l) = pyStrip l := by
  have h1 : dropLead (pyStrip l) = pyStrip l := by
    apply dropWhile_fix_of_pref (dropLead_idem l)
    exact dropTrail_pref (dropLead l)
  show dropTrail (dropLead (pyStrip l)) = pyStrip l
  rw [h1]
  exact dropTrail_idem (dropLead l)

/-- C8: `clear_buffer` empties the buffer unconditionally (it is a total
function, so it never raises, also when nothing was held) and leaves the
source untouched; a read performed right after it behaves as from an empty
buffer regardless of what was held before, and when the source still has a
line it pulls that fresh line: the token comes from the split of the new
stripped line and the source advances past it. -/
theorem clear_then_fresh_line (s : RState) (sep : Option PyStr) :
    clear_buffer s = ⟨none, s.input⟩ ∧
    readOne sep (clear_buffer s) = readOne sep ⟨none, s.input⟩ ∧
    (∀ l ls, s.input = l :: ls →
       readOne sep (clear_buffer s) =
         ((splitParts sep (pyStrip l)).head?,
          ⟨restOf (splitParts sep (pyStrip l)), ls⟩)) := by
  refine ⟨rfl, rfl, fun l ls hi => ?_⟩
  have h0 : clear_buffer s = (⟨none, l :: ls⟩ : RState) := by
    show (⟨none, s.input⟩ : RState) = _
    rw [hi]
  rw [h0]
  simp only [readOne, bufTruthy, pyStrip_idem]
  cases hp : splitParts sep (pyStrip l) with
  | nil => simp [pyStrip_idem, hp, restOf]
  | cons a as => cases as <;> simp [pyStrip_idem, hp, restOf]

/-- C8 (witness): the fresh-line clause applied at a state holding the
remainder `9` with the line `7` still unread. -/
theorem clear_then_fresh_line_witness :
    readOne none (clear_buffer ⟨some ['9'], [['7']]⟩) =
      ((splitParts none (pyStrip ['7'])).head?,
       ⟨restOf (splitParts none (pyStrip ['7'])), []⟩) :=
  (clear_then_fresh_line ⟨some ['9'], [['7']]⟩ none).2.2 ['7'] [] rfl

/-- A prefix is an infix. -/
theorem preInf {a b : PyStr} (h : a <+: b) : a <:+: b := h.isInfix

/-- A suffix is an infix. -/
theorem sufInf {a b : PyStr} (h : a <:+ b) : a <:+: b := h.isInfix

/-- The strip of a string is a contiguous piece of it. -/
theorem pyStrip_inf (l : PyStr) : pyStrip l <:+: l :=
  (preInf (dropTrail_pref (dropLead l))).trans (sufInf (dropLead_suff l))

/-- Every part produced by the whitespace split is a contiguous piece of
the input. -/
theorem splitWs1_parts_inf (l : PyStr) : ∀ p ∈ pySplitWs1 l, p <:+: l := by
  intro p hp
  unfold pySplitWs1 at hp
  cases h : dropLead l with
  | nil => rw [h] at hp; simp at hp
  | cons c cs =>
    rw [h] at hp
    have hsuf : (c :: cs) <:+ l := h ▸ dropLead_suff l
    by_cases hr : dropLead ((c :: cs).dropWhile (fun x => !isWs x)) = []
    · simp [hr] at hp
      subst hp
      exact (preInf (List.takeWhile_prefix _)).trans (sufInf hsuf)
    · simp [hr] at hp
      rcases hp with hp | hp
      · subst hp
        exact (preInf (List.takeWhile_prefix _)).trans (sufInf hsuf)
      · subst hp
        have hchain : dropLead ((c :: cs).dropWhile (fun x => !isWs x)) <:+ (c :: cs) :=
          (List.dropWhile_suffix _).trans (List.dropWhile_suffix _)
        exact sufInf (hchain.trans hsuf)

/-- The first part of an explicit-separator split is a prefix. -/
theorem splitSep1_fst_pref (sep : PyStr) : ∀ l : PyStr, (pySplitSep1 sep l).1 <+: l := by
  intro l
  induction l with
  | nil => exact List.nil_prefix
  | cons c cs ih =>
    by_cases h : sep ≠ [] ∧ sep.isPrefixOf (c :: cs)
    · simp [pySplitSep1, h]
    · simp only [pySplitSep1, if_neg h]
      rcases ih with ⟨t, ht⟩
      exact ⟨t, by rw [List.cons_append, ht]⟩

/-- The remainder of an explicit-separator split is a suffix. -/
theorem splitSep1_snd_suff (sep : PyStr) :
    ∀ (l r : PyStr), (pySplitSep1 sep l).2 = some r → r <:+ l := by
  intro l
  induction l with
  | nil => intro r h; simp [pySplitSep1] at h
  | cons c cs ih =>
    intro r h
    by_cases hc : sep ≠ [] ∧ sep.isPrefixOf (c :: cs)
    · rw [pySplitSep1, if_pos hc] at h
      cases h
      exact List.drop_suffix _ _
    · rw [pySplitSep1, if_neg hc] at h
      exact (ih r h).trans (List.suffix_cons c cs)

/-- Every part produced by `splitParts` is a contiguous piece of the input. -/
theorem splitParts_parts_inf (sep : Option PyStr) (l : PyStr) :
    ∀ p ∈ splitParts sep l, p <:+: l := by
  intro p hp
  cases sep with
  | none => exact splitWs1_parts_inf l p hp
  | some sp =>
    simp only [splitParts] at hp
    rcases hsp : pySplitSep1 sp l with ⟨t, o⟩
    rw [hsp] at hp
    have h1 : t <+: l := by
      have := splitSep1_fst_pref sp l
      rw [hsp] at this
      exact this
    cases o with
    | none =>
      simp at hp
      subst hp
      exact preInf h1
    | some r =>
      simp at hp
      rcases hp with hp | hp
      · subst hp
        exact preInf h1
      · subst hp
        have h2 : p <:+ l := by
          apply splitSep1_snd_suff sp l
          rw [hsp]
        exact sufInf h2

/-- `readOne` evaluated against a truthy buffer: the buffer content is
split, the head becomes the token, the rest the new buffer; the source is
untouched. -/
theorem readOne_eq_buffer (sep : Option PyStr) (s : RState) (c : Char) (cs : PyStr)
    (hb : s.buffer = some (c :: cs)) :
    readOne sep s = ((splitParts sep (pyStrip (c :: cs))).head?,
      ⟨restOf (splitParts sep (pyStrip (c :: cs))), s.input⟩) := by
  cases hp : splitParts sep (pyStrip (c :: cs)) with
  | nil => simp [readOne, hb, bufTruthy, hp, restOf]
  | cons a as => cases as <;> simp [readOne, hb, bufTruthy, hp, restOf]

/-- `readOne` evaluated against a falsy buffer and a non-exhausted source:
the next line is fetched, stripped and split. -/
theorem readOne_eq_fetch (sep : Option PyStr) (s : RState) (l : PyStr) (ls : List PyStr)
    (hb : bufTruthy s.buffer = false) (hi : s.input = l :: ls) :
    readOne sep s = ((splitParts sep (pyStrip l)).head?,
      ⟨restOf (splitParts sep (pyStrip l)), ls⟩) := by
  cases hp : splitParts sep (pyStrip l) with
  | nil => simp [readOne, hb, hi, pyStrip_idem, hp, restOf]
  | cons a as => cases as <;> simp [readOne, hb, hi, pyStrip_idem, hp, restOf]

/-- `readOne` evaluated against a falsy buffer and an exhausted source:
the empty pseudo-line is split. -/
theorem readOne_eq_exhausted (sep : Option PyStr) (s : RState)
    (hb : bufTruthy s.buffer = false) (hi : s.input = []) :
    readOne sep s = ((splitParts sep []).head?, ⟨restOf (splitParts sep []), []⟩) := by
  cases hp : splitParts sep [] with
  | nil => simp [readOne, hb, hi, pyStrip, dropLead, dropTrail, hp, restOf]
  | cons a as =>
    cases as <;> simp [readOne, hb, hi, pyStrip, dropLead, dropTrail, hp, restOf]

/-- The new-buffer component of a split is a contiguous piece of the split
input. -/
theorem restOf_inf (sep : Option PyStr) (x : PyStr) {m : PyStr}
    (hm : restOf (splitParts sep x) = some m) : m <:+: x := by
  cases hp : splitParts sep x with
  | nil => rw [hp] at hm; simp [restOf] at hm
  | cons a as =>
    cases as with
    | nil => rw [hp] at hm; simp [restOf] at hm
    | cons b bs =>
      rw [hp] at hm
      simp [restOf] at hm
      subst hm
      exact splitParts_parts_inf sep x b (by rw [hp]; simp)

/-- The token component of a split is a contiguous piece of the split
input. -/
theorem head_inf (sep : Option PyStr) (x : PyStr) {m : PyStr}
    (hm : (splitParts sep x).head? = some m) : m <:+: x := by
  cases hp : splitParts sep x with
  | nil => rw [hp] at hm; simp at hm
  | cons a as =>
    rw [hp] at hm
    simp at hm
    rw [← hm]
    exact splitParts_parts_inf sep x a (by rw [hp]; simp)

/-- Splitting the empty pseudo-line yields no non-empty token and no new
buffer, for every separator. -/
theorem splitParts_empty_line (sep : Option PyStr) :
    restOf (splitParts sep []) = none ∧
    ∀ c cs, (splitParts sep []).head? ≠ some (c :: cs) := by
  cases sep with
  | none => simp [splitParts, pySplitWs1, dropLead, restOf]
  | some sp => simp [splitParts, pySplitSep1, restOf]

/-- Preservation of the buffer invariant by `readOne` from a falsy buffer,
plus the single-line provenance of the returned token. -/
theorem bufInv_readOne_falsy {s0 : List PyStr} {s : RState} {pre : List PyStr}
    (sep : Option PyStr) (hb : bufTruthy s.buffer = false)
    (hpre : s0 = pre ++ s.input) :
    BufInv s0 (readOne sep s).2 ∧
    (∀ c cs, (readOne sep s).1 = some (c :: cs) → ∃ l, l ∈ s0 ∧ (c :: cs) <:+: l) := by
  cases hi : s.input with
  | nil =>
    rw [readOne_eq_exhausted sep s hb hi]
    constructor
    · refine ⟨pre, by rw [hpre, hi], ?_⟩
      intro m hm
      rw [(splitParts_empty_line sep).1] at hm
      cases hm
    · intro c cs hc
      exact absurd hc ((splitParts_empty_line sep).2 c cs)
  | cons l ls =>
    rw [readOne_eq_fetch sep s l ls hb hi]
    have hlmem : l ∈ s0 := by
      rw [hpre, hi]
      exact List.mem_append_right pre (List.mem_cons_self l ls)
    constructor
    · refine ⟨pre ++ [l], by rw [hpre, hi]; simp, ?_⟩
      intro m hm
      refine ⟨l, by rw [List.getLast?_concat], ?_⟩
      exact (restOf_inf sep (pyStrip l) hm).trans (pyStrip_inf l)
    · intro c cs hc
      exact ⟨l, hlmem, (head_inf sep (pyStrip l) hc).trans (pyStrip_inf l)⟩

/-- Preservation of the buffer invariant by `readOne` from a truthy buffer,
plus the single-line provenance of the returned token. -/
theorem bufInv_readOne_truthy {s0 : List PyStr} {s : RState} {pre : List PyStr}
    {c0 : Char} {cs0 : PyStr}
    (sep : Option PyStr) (hb : s.buffer = some (c0 :: cs0))
    (hpre : s0 = pre ++ s.input)
    (hbuf : ∀ m, s.buffer = some m → ∃ l, pre.getLast? = some l ∧ m <:+: l) :
    BufInv s0 (readOne sep s).2 ∧
    (∀ c cs, (readOne sep s).1 = some (c :: cs) → ∃ l, l ∈ s0 ∧ (c :: cs) <:+: l) := by
  obtain ⟨l0, hl0, hml⟩ := hbuf _ hb
  rw [readOne_eq_buffer sep s c0 cs0 hb]
  have hl0mem : l0 ∈ s0 := by
    rw [hpre]
    exact List.mem_append_left _ (List.mem_of_getLast?_eq_some hl0)
  constructor
  · refine ⟨pre, hpre, ?_⟩
    intro m hm
    refine ⟨l0, hl0, ?_⟩
    exact (((restOf_inf sep _ hm).trans (pyStrip_inf _)).trans hml)
  · intro c cs hc
    exact ⟨l0, hl0mem, ((head_inf sep _ hc).trans (pyStrip_inf _)).trans hml⟩

/-- Preservation of the buffer invariant by a `readOne` step, together with
the fact that a returned (non-empty) token is a contiguous piece of a
single source line. -/
theorem bufInv_readOne {s0 : List PyStr} {s : RState} (sep : Option PyStr)
    (h : BufInv s0 s) :
    BufInv s0 (readOne sep s).2 ∧
    (∀ c cs, (readOne sep s).1 = some (c :: cs) → ∃ l, l ∈ s0 ∧ (c :: cs) <:+: l) := by
  rcases h with ⟨pre, hpre, hbuf⟩
  rcases hbo : s.buffer with _ | mm
  · exact bufInv_readOne_falsy sep (by rw [hbo]; rfl) hpre
  · cases mm with
    | nil => exact bufInv_readOne_falsy sep (by rw [hbo]; rfl) hpre
    | cons c0 cs0 => exact bufInv_readOne_truthy sep hbo hpre hbuf

/-- The buffer invariant is preserved by the shared read loop. -/
theorem bufInv_readLoop (s0 : List PyStr) (sep : Option PyStr) :
    ∀ (types : List TypeReq) (s : RState), BufInv s0 s →
      BufInv s0 (readLoop types sep s).2 := by
  intro types
  induction types with
  | nil => intro s h; exact h
  | cons t ts ih =>
    intro s h
    have h1 := (bufInv_readOne sep h).1
    rcases hro : readOne sep s with ⟨v, s1⟩
    rw [hro] at h1
    show BufInv s0 (readLoop (t :: ts) sep s).2
    simp only [readLoop, hro]
    match v with
    | none => exact h1
    | some [] => exact h1
    | some (c :: cs) =>
      cases ht : transform (c :: cs) t with
      | error e => simp [ht]; exact h1
      | ok w =>
        have h2 := ih s1 h1
        rcases hrl : readLoop ts sep s1 with ⟨rv, s2⟩
        rw [hrl] at h2
        cases rv <;> simp [ht, hrl] <;> exact h2

/-- The state `read` leaves behind is the state its loop leaves behind. -/
theorem read_state_eq (types : List TypeReq) (sep : Option PyStr) (s : RState) :
    (read types sep s).2 = (readLoop types sep s).2 := by
  rw [read_def]
  rcases readLoop types sep s with ⟨v, s1⟩
  cases v <;> rfl

/-- The buffer invariant is preserved by `readline`. -/
theorem bufInv_readline (s0 : List PyStr) (s : RState) (h : BufInv s0 s) :
    BufInv s0 (readline s).2 := by
  rcases h with ⟨pre, hpre, hbuf⟩
  rcases hbo : s.buffer with _ | mm
  · cases hi : s.input with
    | nil =>
      have hrl : (readline s).2 = ⟨none, []⟩ := by simp [readline, hbo, hi]
      rw [hrl]
      exact ⟨pre, by rw [hpre, hi], fun m hm => Option.noConfusion hm⟩
    | cons l ls =>
      have hrl : (readline s).2 = ⟨none, ls⟩ := by simp [readline, hbo, hi]
      rw [hrl]
      exact ⟨pre ++ [l], by rw [hpre, hi]; simp, fun m hm => Option.noConfusion hm⟩
  · cases mm with
    | nil =>
      cases hi : s.input with
      | nil =>
        have hrl : (readline s).2 = ⟨some [], []⟩ := by simp [readline, hbo, hi]
        rw [hrl]
        refine ⟨pre, by rw [hpre, hi], ?_⟩
        intro m hm
        cases hm
        obtain ⟨l0, hl0, _⟩ := hbuf [] hbo
        exact ⟨l0, hl0, preInf List.nil_prefix⟩
      | cons l ls =>
        have hrl : (readline s).2 = ⟨some [], ls⟩ := by simp [readline, hbo, hi]
        rw [hrl]
        refine ⟨pre ++ [l], by rw [hpre, hi]; simp, ?_⟩
        intro m hm
        cases hm
        exact ⟨l, by rw [List.getLast?_concat], preInf List.nil_prefix⟩
    | cons c cs =>
      have hrl : (readline s).2 = ⟨none, s.input⟩ := by simp [readline, hbo]
      rw [hrl]
      exact ⟨pre, hpre, fun m hm => Option.noConfusion hm⟩

/-- C9: the buffer invariant — the unread input is a suffix of the original
source and the buffer holds at most a contiguous piece of the single most
recently fetched line, never content spanning several lines — is preserved
by every operation (`readOne`, `readline`, `clear_buffer`, `read`,
`read_list`), and every non-empty token `_read_one` returns lies entirely
within one source line. -/
theorem buffer_single_line (s0 : List PyStr) (s : RState) (sep : Option PyStr)
    (h : BufInv s0 s) :
    BufInv s0 (readOne sep s).2 ∧
    (∀ c cs, (readOne sep s).1 = some (c :: cs) → ∃ l, l ∈ s0 ∧ (c :: cs) <:+: l) ∧
    BufInv s0 (readline s).2 ∧
    BufInv s0 (clear_buffer s) ∧
    (∀ types, BufInv s0 (read types sep s).2) ∧
    (∀ typ n, BufInv s0 (read_list typ n sep s).2) := by
  refine ⟨(bufInv_readOne sep h).1, (bufInv_readOne sep h).2,
    bufInv_readline s0 s h, ?_, fun types => ?_, fun typ n => ?_⟩
  · rcases h with ⟨pre, hpre, _⟩
    exact ⟨pre, hpre, fun m hm => Option.noConfusion hm⟩
  · rw [read_state_eq]
    exact bufInv_readLoop s0 sep types s h
  · by_cases hn : n = 0
    · simpa [read_list, hn] using h
    · simpa [read_list, hn] using bufInv_readLoop s0 sep (List.replicate n typ) s h

/-- C9 (witness): the invariant carried through one `readOne` step from the
fresh state over the one-line source `a`. -/
theorem buffer_single_line_witness :
    BufInv [['a']] (readOne none ⟨none, [['a']]⟩).2 :=
  (buffer_single_line [['a']] ⟨none, [['a']]⟩ none
    ⟨[], rfl, fun _ hm => Option.noConfusion hm⟩).1

/-- The token of a whitespace split is never empty. -/
theorem splitWs1_head_ne {m t : PyStr} {rest : List PyStr}
    (h : pySplitWs1 m = t :: rest) : t ≠ [] := by
  unfold pySplitWs1 at h
  cases hdl : dropLead m with
  | nil => rw [hdl] at h; simp at h
  | cons c cs =>
    rw [hdl] at h
    have hc : isWs c = false := dropWhile_head_false m c cs hdl
    have hq : (fun x => !isWs x) c = true := by simp [hc]
    by_cases hr : dropLead ((c :: cs).dropWhile (fun x => !isWs x)) = []
    · simp only [if_pos hr] at h
      have ht : t = (c :: cs).takeWhile (fun x => !isWs x) := by
        cases h; rfl
      rw [ht]
      simp [List.takeWhile_cons, hc]
    · simp only [if_neg hr] at h
      have ht : t = (c :: cs).takeWhile (fun x => !isWs x) := by
        cases h; rfl
      rw [ht]
      simp [List.takeWhile_cons, hc]

/-- Structure of a two-part whitespace split: the trailing pattern list is
empty, both parts are non-empty, the remainder is shorter than the input,
starts with no whitespace, and is a suffix of the input. -/
theorem splitWs1_two {m t r : PyStr} {rest : List PyStr}
    (h : pySplitWs1 m = t :: r :: rest) :
    rest = [] ∧ t ≠ [] ∧ r ≠ [] ∧ r.length < m.length ∧
      dropLead r = r ∧ r <:+ m := by
  have htne : t ≠ [] := splitWs1_head_ne h
  unfold pySplitWs1 at h
  cases hdl : dropLead m with
  | nil => rw [hdl] at h; simp at h
  | cons c cs =>
    rw [hdl] at h
    have hc : isWs c = false := dropWhile_head_false m c cs hdl
    have hq : (fun x => !isWs x) c = true := by simp [hc]
    by_cases hr : dropLead ((c :: cs).dropWhile (fun x => !isWs x)) = []
    · simp only [if_pos hr] at h
      simp at h
    · simp only [if_neg hr] at h
      obtain ⟨ht, hrr, hrest⟩ : t = (c :: cs).takeWhile (fun x => !isWs x) ∧
          r = dropLead ((c :: cs).dropWhile (fun x => !isWs x)) ∧ rest = [] := by
        cases h; exact ⟨rfl, rfl, rfl⟩
      have hrne : r ≠ [] := by rw [hrr]; exact hr
      have hdlr : dropLead r = r := by
        rw [hrr]
        exact dropLead_idem _
      have hsufcs : r <:+ cs := by
        rw [hrr]
        have h1 : (c :: cs).dropWhile (fun x => !isWs x) =
            cs.dropWhile (fun x => !isWs x) := by
          simp [List.dropWhile_cons, hc]
        rw [dropLead, h1]
        exact (List.dropWhile_suffix _).trans (List.dropWhile_suffix _)
      have hsufm : r <:+ m := by
        have h2 : (c :: cs) <:+ m := hdl ▸ dropLead_suff m
        exact (hsufcs.trans (List.suffix_cons c cs)).trans h2
      have hlen : r.length < m.length := by
        have h3 : cs.length < (c :: cs).length := by simp
        have h4 : (c :: cs).length ≤ m.length := by
          have := hdl ▸ dropLead_suff m
          exact this.length_le
        have h5 := hsufcs.length_le
        omega
      exact ⟨hrest, htne, hrne, hlen, hdlr, hsufm⟩

/-- `wsIterGo` does not depend on the fuel once the fuel covers the length
of the string. -/
theorem wsIterGo_congr : ∀ (f1 f2 : Nat) (m : PyStr),
    m.length ≤ f1 → m.length ≤ f2 → wsIterGo f1 m = wsIterGo f2 m := by
  intro f1
  induction f1 with
  | zero =>
    intro f2 m h1 _
    have hm : m = [] := List.length_eq_zero.mp (Nat.le_zero.mp h1)
    subst hm
    cases f2 with
    | zero => rfl
    | succ g => simp [wsIterGo, pySplitWs1, dropLead]
  | succ f ih =>
    intro f2 m h1 h2
    cases f2 with
    | zero =>
      have hm : m = [] := List.length_eq_zero.mp (Nat.le_zero.mp h2)
      subst hm
      simp [wsIterGo, pySplitWs1, dropLead]
    | succ g =>
      simp only [wsIterGo]
      cases hsp : pySplitWs1 m with
      | nil => rfl
      | cons t rest =>
        cases rest with
        | nil => rfl
        | cons r rest2 =>
          have hlt : r.length < m.length := (splitWs1_two hsp).2.2.2.1
          show t :: wsIterGo f r = t :: wsIterGo g r
          congr 1
          exact ih g r (by omega) (by omega)

/-- `pyTokens` computed at the strip of the line with its own length as
fuel. -/
theorem pyTokens_eq_fix (l : PyStr) :
    pyTokens l = wsIterGo (pyStrip l).length (pyStrip l) := by
  unfold pyTokens
  exact wsIterGo_congr l.length (pyStrip l).length (pyStrip l)
    (pyStrip_inf l).length_le le_rfl

/-- Token recursion, empty case. -/
theorem tokens_step_nil {m : PyStr} (h : pySplitWs1 m = []) :
    wsIterGo m.length m = [] := by
  cases hm0 : m.length with
  | zero => rfl
  | succ k => simp only [wsIterGo, h]

/-- Token recursion, single-token case. -/
theorem tokens_step_one {m t : PyStr} (h : pySplitWs1 m = [t]) :
    wsIterGo m.length m = [t] := by
  cases hm0 : m.length with
  | zero =>
    have hm : m = [] := List.length_eq_zero.mp hm0
    rw [hm] at h
    simp [pySplitWs1, dropLead] at h
  | succ k =>
    simp only [wsIterGo, h]

/-- Token recursion, two-part case: the head token followed by the tokens
of the remainder. -/
theorem tokens_step_two {m t r : PyStr} {rest : List PyStr}
    (h : pySplitWs1 m = t :: r :: rest) :
    wsIterGo m.length m = t :: wsIterGo r.length r := by
  have hlt : r.length < m.length := (splitWs1_two h).2.2.2.1
  cases hm0 : m.length with
  | zero => omega
  | succ k =>
    simp only [wsIterGo, h]
    show t :: wsIterGo k r = t :: wsIterGo r.length r
    congr 1
    exact wsIterGo_congr k r.length r (by omega) le_rfl

/-- `readOne` with default whitespace splitting on a truthy, already
stripped buffer. -/
theorem readOne_str_buffer {m : PyStr} (inp : List PyStr) (hfix : pyStrip m = m)
    {c0 : Char} {cs0 : PyStr} (hm : m = c0 :: cs0) :
    readOne none ⟨some m, inp⟩ =
      ((pySplitWs1 m).head?, ⟨restOf (pySplitWs1 m), inp⟩) := by
  subst hm
  rw [readOne_eq_buffer none ⟨some (c0 :: cs0), inp⟩ c0 cs0 rfl]
  rw [show pyStrip (c0 :: cs0) = c0 :: cs0 from hfix]
  rfl

/-- One single-string `read` on a stripped buffer whose split has exactly
one part: the token is returned and the buffer is cleared. -/
theorem read_str_step_one {m t : PyStr} (inp : List PyStr) (hfix : pyStrip m = m)
    {c0 : Char} {cs0 : PyStr} (hm : m = c0 :: cs0)
    (hsp : pySplitWs1 m = [t]) :
    read [TypeReq.str] none ⟨some m, inp⟩ = (.ok (.str t), ⟨none, inp⟩) := by
  have hro : readOne none ⟨some m, inp⟩ = (some t, ⟨none, inp⟩) := by
    rw [readOne_str_buffer inp hfix hm, hsp]
    rfl
  obtain ⟨c1, cs1, ht⟩ : ∃ c1 cs1, t = c1 :: cs1 := by
    have h1 := splitWs1_head_ne hsp
    cases t with
    | nil => exact absurd rfl h1
    | cons a as => exact ⟨a, as, rfl⟩
  subst ht
  rw [read_def]
  simp only [readLoop, hro]
  rfl

/-- One single-string `read` on a stripped buffer whose split has two
parts: the token is returned and the remainder becomes the buffer. -/
theorem read_str_step_two {m t r : PyStr} {rest : List PyStr} (inp : List PyStr)
    (hfix : pyStrip m = m) {c0 : Char} {cs0 : PyStr} (hm : m = c0 :: cs0)
    (hsp : pySplitWs1 m = t :: r :: rest) :
    read [TypeReq.str] none ⟨some m, inp⟩ = (.ok (.str t), ⟨some r, inp⟩) := by
  have hro : readOne none ⟨some m, inp⟩ = (some t, ⟨some r, inp⟩) := by
    rw [readOne_str_buffer inp hfix hm, hsp]
    rfl
  obtain ⟨c1, cs1, ht⟩ : ∃ c1 cs1, t = c1 :: cs1 := by
    have h1 := splitWs1_head_ne hsp
    cases t with
    | nil => exact absurd rfl h1
    | cons a as => exact ⟨a, as, rfl⟩
  subst ht
  rw [read_def]
  simp only [readLoop, hro]
  rfl

/-- Running `k` successive single-string whitespace reads against a truthy,
stripped buffer holding `k` or more tokens: the first `k` tokens come back
in order and the buffer advances to the remainder after them. -/
theorem readSeq_run (k : Nat) :
    ∀ (m : PyStr) (inp : List PyStr), pyStrip m = m → m ≠ [] →
      k ≤ (wsIterGo m.length m).length →
      readSeq (List.replicate k none) ⟨some m, inp⟩ =
        (((wsIterGo m.length m).take k).map (fun t => Except.ok (PyVal.str t)),
         ⟨bufOf (tokRest k m), inp⟩) := by
  induction k with
  | zero =>
    intro m inp _ hne _
    simp [readSeq, tokRest, bufOf, hne]
  | succ k ih =>
    intro m inp hfix hne hk
    obtain ⟨c0, cs0, hm⟩ : ∃ c0 cs0, m = c0 :: cs0 := by
      cases m with
      | nil => exact absurd rfl hne
      | cons a as => exact ⟨a, as, rfl⟩
    cases hsp : pySplitWs1 m with
    | nil =>
      rw [tokens_step_nil hsp] at hk
      simp at hk
    | cons t rest =>
      cases rest with
      | nil =>
        rw [tokens_step_one hsp] at hk ⊢
        have hk0 : k = 0 := by simp at hk; omega
        subst hk0
        have hstep := read_str_step_one inp hfix hm hsp
        show readSeq (List.replicate 1 none) ⟨some m, inp⟩ = _
        simp only [List.replicate, readSeq, hstep]
        have hrest : tokRest 1 m = [] := by
          simp [tokRest, snd1, hsp]
        rw [hrest]
        simp [bufOf]
      | cons r rest2 =>
        obtain ⟨_, htne, hrne, hlt, hdlr, hsufm⟩ := splitWs1_two hsp
        have hfixr : pyStrip r = r := by
          have hdt : dropTrail r = r :=
            dropTrail_fix_of_suff (dropTrail_of_strip_fix hfix) hsufm
          show dropTrail (dropLead r) = r
          rw [hdlr, hdt]
        rw [tokens_step_two hsp] at hk ⊢
        have hk2 : k ≤ (wsIterGo r.length r).length := by
          simp at hk
          omega
        have hstep := read_str_step_two inp hfix hm hsp
        have hih := ih r inp hfixr hrne hk2
        rw [List.replicate_succ]
        simp only [readSeq, hstep, hih]
        have htr : tokRest (k + 1) m = tokRest k r := by
          show tokRest k (snd1 m) = tokRest k r
          congr 1
          simp [snd1, hsp]
        rw [htr]
        simp

/-- Two states on which `_read_one` behaves identically give identical
single-string `read` results. -/
theorem read_str_congr {sep : Option PyStr} {s s2 : RState}
    (h : readOne sep s = readOne sep s2) :
    read [TypeReq.str] sep s = read [TypeReq.str] sep s2 := by
  rw [read_def, read_def]
  simp only [readLoop, h]

/-- Starting a non-empty run of whitespace reads from the fresh state over
a one-line source is the same as starting from the stripped line already
buffered (the first read fetches and strips the line either way). -/
theorem readSeq_fresh (sps : List (Option PyStr)) (line : PyStr)
    {c : Char} {cs : PyStr} (hs : pyStrip line = c :: cs) :
    readSeq (none :: sps) ⟨none, [line]⟩ =
      readSeq (none :: sps) ⟨some (pyStrip line), []⟩ := by
  have h1 : readOne none ⟨none, [line]⟩ = readOne none ⟨some (pyStrip line), []⟩ := by
    rw [readOne_eq_fetch none ⟨none, [line]⟩ line [] rfl rfl]
    rw [readOne_eq_buffer none ⟨some (pyStrip line), []⟩ c cs (by rw [hs])]
    rw [← hs, pyStrip_idem]
  simp only [readSeq, read_str_congr h1]

/-- Running `k ≤ N` successive single-string whitespace reads from the
fresh state over the one-line source `line` with `N` whitespace tokens
yields the first `k` tokens, in order, and leaves `stateAfter line k`. -/
theorem readSeq_full (line : PyStr) (k : Nat) (hk : k ≤ (pyTokens line).length) :
    readSeq (List.replicate k none) ⟨none, [line]⟩ =
      (((pyTokens line).take k).map (fun t => Except.ok (PyVal.str t)),
       stateAfter line k) := by
  cases k with
  | zero => simp [readSeq, stateAfter]
  | succ k =>
    rw [pyTokens_eq_fix] at hk ⊢
    have hne : pyStrip line ≠ [] := by
      intro h0
      rw [h0] at hk
      simp [wsIterGo] at hk
    obtain ⟨c, cs, hcc⟩ : ∃ c cs, pyStrip line = c :: cs := by
      cases hps : pyStrip line with
      | nil => exact absurd hps hne
      | cons a as => exact ⟨a, as, rfl⟩
    rw [List.replicate_succ, readSeq_fresh (List.replicate k none) line hcc,
      ← List.replicate_succ]
    rw [readSeq_run (k + 1) (pyStrip line) [] (pyStrip_idem line) hne hk]
    simp [stateAfter]

/-- C5: round-trip of tokenizing and the rest-of-line passthrough — for
every line and every `k` not exceeding its number `N` of
whitespace-separated tokens, reading `k` single scalar string tokens from
the fresh state over that one-line source yields exactly the first `k`
tokens, and `readline` called next returns exactly the line's remaining
whitespace-separated content with surrounding whitespace trimmed
(`tokRest k (pyStrip line)`: the stripped line with its first `k` tokens
split off). -/
theorem read_then_readline (line : PyStr) (k : Nat)
    (hk : k ≤ (pyTokens line).length) :
    readSeq (List.replicate k none) ⟨none, [line]⟩ =
      (((pyTokens line).take k).map (fun t => Except.ok (PyVal.str t)),
       stateAfter line k) ∧
    (readline (stateAfter line k)).1 = tokRest k (pyStrip line) := by
  refine ⟨readSeq_full line k hk, ?_⟩
  cases k with
  | zero => simp [stateAfter, readline, tokRest]
  | succ k =>
    simp only [stateAfter]
    cases hX : tokRest (k + 1) (pyStrip line) with
    | nil => simp [bufOf, readline]
    | cons a as => simp [bufOf, readline]

/-- C5 (witness): the round-trip applied at the line `a b` with `k = 1`. -/
theorem read_then_readline_witness :
    readSeq (List.replicate 1 none) ⟨none, [['a', ' ', 'b']]⟩ =
      (((pyTokens ['a', ' ', 'b']).take 1).map (fun t => Except.ok (PyVal.str t)),
       stateAfter ['a', ' ', 'b'] 1) ∧
    (readline (stateAfter ['a', ' ', 'b'] 1)).1 =
      tokRest 1 (pyStrip ['a', ' ', 'b']) :=
  read_then_readline ['a', ' ', 'b'] 1 (by decide)

/-- C7: for every line of `N` whitespace-separated tokens, `N` successive
single-scalar reads yield exactly those tokens in their original left-to-
right order; and the outputs of a sequence of single-scalar reads are
determined by the separators already used — changing a later separator
never changes (in particular never reorders) earlier outputs. -/
theorem tokens_in_order :
    (∀ line : PyStr,
       (readSeq (List.replicate (pyTokens line).length none) ⟨none, [line]⟩).1 =
         (pyTokens line).map (fun t => Except.ok (PyVal.str t))) ∧
    (∀ (k : Nat) (a b : List (Option PyStr)) (s : RState), a.take k = b.take k →
       ((readSeq a s).1).take k = ((readSeq b s).1).take k) := by
  constructor
  · intro line
    rw [readSeq_full line (pyTokens line).length le_rfl]
    simp
  · intro k
    induction k with
    | zero => intro a b s _; simp
    | succ k ih =>
      intro a b s hab
      cases a with
      | nil =>
        cases b with
        | nil => rfl
        | cons y ys => simp at hab
      | cons x xs =>
        cases b with
        | nil => simp at hab
        | cons y ys =>
          simp only [List.take_succ_cons, List.cons.injEq] at hab
          obtain ⟨hxy, hab2⟩ := hab
          subst hxy
          simp only [readSeq]
          rcases hr : read [TypeReq.str] x s with ⟨r1, s1⟩
          rcases h2 : readSeq xs s1 with ⟨rs, s2⟩
          rcases h3 : readSeq ys s1 with ⟨rs2, s3⟩
          have h4 := ih xs ys s1 hab2
          rw [h2, h3] at h4
          simp [List.take_succ_cons, h4]

/-- C7 (witness): the separator-stability clause applied at two concrete
separator sequences agreeing on their first element. -/
theorem tokens_in_order_witness :
    ((readSeq [none, some [',']] ⟨none, [['a', ' ', 'b']]⟩).1).take 1 =
      ((readSeq [none, some [';']] ⟨none, [['a', ' ', 'b']]⟩).1).take 1 :=
  tokens_in_order.2 1 [none, some [',']] [none, some [';']]
    ⟨none, [['a', ' ', 'b']]⟩ rfl
